import Mathlib

/-
Verification of the hform-validator validation engine.

The engine (class Validator, file validator.ts) walks an input object
against a schema and produces a result tree of booleans.  We embed the
JavaScript runtime values the engine manipulates as the inductive type
Value, the schema rules as the inductive type Rule (one constructor per
runtime shape the dispatcher distinguishes), and the engine functions
validateHelper, applyDefaultValidator, validateEnum, validateArray and
validateCompositeValidator as Lean functions over these types.  A
JavaScript TypeError (thrown when validateArray invokes a non-function
itemType) is modelled by the error side of Except.
-/

/-- Embedding of the JavaScript runtime values the validator manipulates.
Numbers are modelled as integers (the reference tests use only integral
numbers); objects and arrays carry their own properties and elements. -/
inductive Value where
  | str (s : String)
  | num (n : Int)
  | bool (b : Bool)
  | vnull
  | undefined
  | obj (fields : List (String × Value))
  | arr (elems : List Value)
  | sym (id : Nat)
  | bigint (n : Int)

/-- Test for the JavaScript value null. -/
def Value.isNull : Value → Bool
  | .vnull => true
  | _ => false

/-- Test for the JavaScript value undefined. -/
def Value.isUndefined : Value → Bool
  | .undefined => true
  | _ => false

/-- Primitive values carry no nested values: everything except objects
and arrays; on these, structural equality of the embedding coincides
with JavaScript strict equality. -/
def Value.isPrimitive : Value → Bool
  | .obj _ => false
  | .arr _ => false
  | _ => true

mutual
/-- Structural equality of embedded values, modelling the SameValueZero
comparison used by Array.prototype.includes on the primitive values the
validator compares. -/
def Value.beq : Value → Value → Bool
  | .str a, .str b => a == b
  | .num a, .num b => a == b
  | .bool a, .bool b => a == b
  | .vnull, .vnull => true
  | .undefined, .undefined => true
  | .obj a, .obj b => Value.beqFields a b
  | .arr a, .arr b => Value.beqElems a b
  | .sym a, .sym b => a == b
  | .bigint a, .bigint b => a == b
  | _, _ => false

/-- Pointwise equality of object field lists. -/
def Value.beqFields : List (String × Value) → List (String × Value) → Bool
  | [], [] => true
  | (k1, v1) :: r1, (k2, v2) :: r2 =>
    k1 == k2 && Value.beq v1 v2 && Value.beqFields r1 r2
  | _, _ => false

/-- Pointwise equality of array element lists. -/
def Value.beqElems : List Value → List Value → Bool
  | [], [] => true
  | v1 :: r1, v2 :: r2 => Value.beq v1 v2 && Value.beqElems r1 r2
  | _, _ => false
end

instance : BEq Value := ⟨Value.beq⟩

/-- Embedding of the JavaScript typeof operator on Value; note that
typeof null is the string tag for objects, as in JavaScript. -/
def typeOf : Value → String
  | .str _ => "string"
  | .num _ => "number"
  | .bool _ => "boolean"
  | .vnull => "object"
  | .undefined => "undefined"
  | .obj _ => "object"
  | .arr _ => "object"
  | .sym _ => "symbol"
  | .bigint _ => "bigint"

/-- Embedding of Object.prototype.hasOwnProperty.call(input, key): own
properties of plain objects are their fields; arrays and strings own
their canonical index keys and length. -/
def hasOwn (v : Value) (key : String) : Bool :=
  match v with
  | .obj fields => fields.any (fun p => p.1 == key)
  | .arr elems =>
    key == "length" ||
      (match key.toNat? with
        | some i => key == toString i && i < elems.length
        | none => false)
  | .str s =>
    key == "length" ||
      (match key.toNat? with
        | some i => key == toString i && i < s.length
        | none => false)
  | _ => false

/-- Embedding of the property read input[key] (the source line
const value = input[key]); a missing property reads as undefined. -/
def getField (v : Value) (key : String) : Value :=
  match v with
  | .obj fields =>
    match fields.find? (fun p => p.1 == key) with
    | some p => p.2
    | none => .undefined
  | .arr elems =>
    if key == "length" then .num elems.length
    else
      match key.toNat? with
      | some i => if key == toString i then elems.getD i .undefined else .undefined
      | none => .undefined
  | .str s =>
    if key == "length" then .num s.length
    else
      match key.toNat? with
      | some i =>
        match (s.toList.drop i).head? with
        | some c => if key == toString i then .str (String.mk [c]) else .undefined
        | none => .undefined
      | none => .undefined
  | _ => .undefined

/-- Embedding of Validator.applyDefaultValidator: dispatch on the
primitive type tag; the object tag additionally excludes null, and an
unknown tag falls to the default case and is invalid. -/
def applyDefaultValidator (type : String) (value : Value) : Bool :=
  if type == "string" then typeOf value == "string"
  else if type == "number" then typeOf value == "number"
  else if type == "boolean" then typeOf value == "boolean"
  else if type == "object" then typeOf value == "object" && !value.isNull
  else if type == "symbol" then typeOf value == "symbol"
  else if type == "bigint" then typeOf value == "bigint"
  else if type == "undefined" then typeOf value == "undefined"
  else if type == "null" then value.isNull
  else false

/-- Embedding of Validator.validateEnum: the enum object is its list of
named members, and Object.values(enumType).includes(value) is membership
of the value among the member values. -/
def validateEnum (value : Value) (enumType : List (String × Value)) : Bool :=
  (enumType.map Prod.snd).contains value

/-- Embedding of the itemType argument of Validator.validateArray.  The
source dispatches on its runtime shape: a string tag, an object owning
an enum property, or anything else, which it invokes as a function.  The
constructor itemTypeObj stands for an object that owns an itemType
property but no enum property (for example a nested array descriptor):
it is not callable, so invoking it raises a TypeError. -/
inductive ItemRule where
  | prim (tag : String)
  | pred (f : Value → Bool)
  | enumDesc (values : List (String × Value))
  | itemTypeObj (inner : ItemRule)

/-- Supported item rules are the three shapes validateArray handles
without faulting: a primitive tag, a predicate, or an enum descriptor. -/
def ItemRule.isSupported : ItemRule → Bool
  | .itemTypeObj _ => false
  | _ => true

/-- Embedding of a JavaScript TypeError surfacing from the engine. -/
inductive JsError where
  | typeError
deriving DecidableEq, Repr

/-- Check of one array element against the itemType, following the
dispatch inside Validator.validateArray: a string tag applies the
default validator, an object with an enum property applies the enum
check, a function is invoked; a non-function object without an enum
property is invoked as a function and raises a TypeError. -/
def itemPasses (itemType : ItemRule) (item : Value) : Except JsError Bool :=
  match itemType with
  | .prim tag => .ok (applyDefaultValidator tag item)
  | .enumDesc vals => .ok (validateEnum item vals)
  | .pred f => .ok (f item)
  | .itemTypeObj _ => .error .typeError

/-- Embedding of Array.prototype.every with a possibly faulting
callback: elements are tested left to right, stopping at the first
false result or fault; the empty list yields true. -/
def everyExcept : List Value → (Value → Except JsError Bool) → Except JsError Bool
  | [], _ => .ok true
  | x :: xs, f =>
    match f x with
    | .error e => .error e
    | .ok true => everyExcept xs f
    | .ok false => .ok false

/-- Embedding of Validator.validateArray: a non-array value is invalid
at once; an array is valid when every element passes the itemType check. -/
def validateArray (value : Value) (itemType : ItemRule) : Except JsError Bool :=
  match value with
  | .arr elems => everyExcept elems (itemPasses itemType)
  | _ => .ok false

/-- Embedding of one schema rule, with one constructor per runtime shape
the dispatcher in Validator.validateHelper distinguishes: the string
primitive tags, predicate functions, objects owning an enum property,
objects owning an itemType property, plain objects (nested schemas,
given as the list of their fields), and arrays of rules (composite
rules). -/
inductive Rule where
  | prim (tag : String)
  | pred (f : Value → Bool)
  | enumDesc (values : List (String × Value))
  | arrayDesc (itemType : ItemRule)
  | nested (schema : List (String × Rule))
  | composite (rules : List Rule)

/-- A schema is what the Validator constructor stores: field names with
their rules, in declaration order. -/
abbrev Schema := List (String × Rule)

/-- Embedding of the result object built by Validator.validateHelper:
each key holds either a boolean or, for the recursive cases, a nested
result tree. -/
inductive VResult where
  | bool (b : Bool)
  | tree (entries : List (String × VResult))

/-- Condition of the nested-recursion branch of validateHelper on the
field value: typeof value is the object tag and value is not null.
Arrays satisfy it, since typeof of an array is the object tag. -/
def isObjectNonNull (v : Value) : Bool :=
  typeOf v == "object" && !v.isNull

/-- Body of the every callback inside Validator.validateCompositeValidator:
one composite list element checked against the value.  A string applies
the default validator, a function is invoked, an object with an enum or
itemType property delegates to the enum or array checker, and any other
element shape falls through to the final return false. -/
def compElementPasses (value : Value) : Rule → Except JsError Bool
  | .prim tag => .ok (applyDefaultValidator tag value)
  | .pred f => .ok (f value)
  | .enumDesc vals => .ok (validateEnum value vals)
  | .arrayDesc it => validateArray value it
  | .nested _ => .ok false
  | .composite _ => .ok false

/-- Run a list of composite elements left to right with the every
short-circuit: stop at the first false or fault. -/
def compEvery (value : Value) : List Rule → Except JsError Bool
  | [] => .ok true
  | r :: rs =>
    match compElementPasses value r with
    | .error e => .error e
    | .ok true => compEvery value rs
    | .ok false => .ok false

/-- Argument shape of Validator.validateCompositeValidator: the source
accepts one validator or an array of validators. -/
inductive CompositeArg where
  | single (r : Rule)
  | list (rs : List Rule)

/-- Embedding of Validator.validateCompositeValidator: normalize the
argument to an array (a singleton if it is not already an array), then
require every element to pass against the value. -/
def validateCompositeValidator (value : Value) (validators : CompositeArg) : Except JsError Bool :=
  let validatorArray :=
    match validators with
    | .list rs => rs
    | .single r => [r]
  compEvery value validatorArray

mutual
/-- Embedding of Validator.validateHelper: the for-in loop over the
schema keys, building the result object in key order.  A fault raised
while processing a key aborts the whole call. -/
def validateHelper (input : Value) : Schema → Except JsError (List (String × VResult))
  | [] => .ok []
  | (key, rule) :: rest =>
    match keyResult input key rule with
    | .error e => .error e
    | .ok r =>
      match validateHelper input rest with
      | .error e => .error e
      | .ok tl => .ok ((key, r) :: tl)

/-- Body of the validateHelper loop for one key: the undefined and null
tags are handled before the own-property check; every other rule kind
first fails closed when the key is absent, then dispatches on the shape
of the rule.  A plain-object rule recurses when the value is a non-null
object; a composite (array) rule also recurses — treating the rule
array as a schema whose keys are the element indices, exactly as the
source recursion validateHelper(value, validatorOrType) does on an
array — because the typeof check of the nested branch precedes the
Array.isArray check in the source, and is delegated to the composite
checker only when the value is not a non-null object.  A plain-object
rule whose value is not a non-null object falls through every dispatch
case to the unhandled-case warning and is recorded invalid. -/
def keyResult (input : Value) (key : String) : Rule → Except JsError VResult
  | .prim tag =>
    if tag == "undefined" then
      .ok (.bool (!hasOwn input key || (getField input key).isUndefined))
    else if tag == "null" then
      .ok (.bool (getField input key).isNull)
    else if !hasOwn input key then
      .ok (.bool false)
    else
      .ok (.bool (applyDefaultValidator tag (getField input key)))
  | .pred f =>
    if !hasOwn input key then .ok (.bool false)
    else .ok (.bool (f (getField input key)))
  | .enumDesc vals =>
    if !hasOwn input key then .ok (.bool false)
    else .ok (.bool (validateEnum (getField input key) vals))
  | .arrayDesc it =>
    if !hasOwn input key then .ok (.bool false)
    else
      match validateArray (getField input key) it with
      | .error e => .error e
      | .ok b => .ok (.bool b)
  | .nested s =>
    if !hasOwn input key then .ok (.bool false)
    else if isObjectNonNull (getField input key) then
      match validateHelper (getField input key) s with
      | .error e => .error e
      | .ok t => .ok (.tree t)
    else .ok (.bool false)
  | .composite rs =>
    if !hasOwn input key then .ok (.bool false)
    else if isObjectNonNull (getField input key) then
      match validateIndexed (getField input key) 0 rs with
      | .error e => .error e
      | .ok t => .ok (.tree t)
    else
      match validateCompositeValidator (getField input key) (.list rs) with
      | .error e => .error e
      | .ok b => .ok (.bool b)

/-- The for-in loop of validateHelper when the schema argument is a rule
array: the enumerable own keys of a JavaScript array are its element
indices as strings, in order, so element i is processed under the key
toString i. -/
def validateIndexed (input : Value) (i : Nat) : List Rule → Except JsError (List (String × VResult))
  | [] => .ok []
  | r :: rs =>
    match keyResult input (toString i) r with
    | .error e => .error e
    | .ok res =>
      match validateIndexed input (i + 1) rs with
      | .error e => .error e
      | .ok tl => .ok ((toString i, res) :: tl)
end

/-- Embedding of the Validator class: an instance holds the schema given
to the constructor. -/
structure Validator where
  schema : Schema

/-- Embedding of Validator.validate: run validateHelper on the input
against the stored schema. -/
def Validator.validate (v : Validator) (input : Value) : Except JsError (List (String × VResult)) :=
  validateHelper input v.schema

/-- Predicate from the reference material checking that a number is
strictly positive; on a non-number argument the composite examples never
reach it, and it reports false. -/
def isPositive : Value → Bool
  | .num n => decide (0 < n)
  | _ => false

/-- Index-keyed schema built from a rule array starting at index i: the
schema a JavaScript for-in loop sees when handed the array itself. -/
def indexedFrom (i : Nat) : List Rule → Schema
  | [] => []
  | r :: rs => (toString i, r) :: indexedFrom (i + 1) rs

theorem Value.isUndef_iff (v : Value) : v.isUndefined = true ↔ v = .undefined := by
  cases v <;> simp [Value.isUndefined]

theorem Value.isNull_iff (v : Value) : v.isNull = true ↔ v = .vnull := by
  cases v <;> simp [Value.isNull]

/-- On a primitive right-hand side, the structural equality of the
embedding coincides with propositional equality. -/
theorem Value.beq_iff_of_primitive (a b : Value) (h : b.isPrimitive = true) :
    Value.beq a b = true ↔ a = b := by
  cases b <;> simp [Value.isPrimitive] at h <;> cases a <;> simp [Value.beq]

/-- Loop of validateIndexed agrees with running validateHelper on the
index-keyed schema: processing a rule array as a schema is processing
its elements under their index keys. -/
theorem validateIndexed_eq_validateHelper (input : Value) :
    ∀ (rs : List Rule) (i : Nat),
      validateIndexed input i rs = validateHelper input (indexedFrom i rs) := by
  intro rs
  induction rs with
  | nil => intro i; rfl
  | cons r rest ih =>
    intro i
    simp only [validateIndexed, indexedFrom, validateHelper, ih (i + 1)]

/-- Enum membership: when every enum member is a primitive value, the
enum check holds exactly when some member equals the value. -/
theorem validateEnum_iff (v : Value) (vals : List (String × Value))
    (h : ∀ p ∈ vals, (p.2 : Value).isPrimitive = true) :
    validateEnum v vals = true ↔ ∃ p ∈ vals, p.2 = v := by
  induction vals with
  | nil => simp [validateEnum]
  | cons p rest ih =>
    have hp : (p.2 : Value).isPrimitive = true := h p (by simp)
    have hrest : ∀ q ∈ rest, (q.2 : Value).isPrimitive = true := by
      intro q hq; exact h q (by simp [hq])
    simp only [validateEnum, List.map_cons, List.contains_cons] at *
    rw [Bool.or_eq_true]
    constructor
    · rintro (hbeq | hmem)
      · exact ⟨p, by simp, ((Value.beq_iff_of_primitive v p.2 hp).mp hbeq).symm⟩
      · obtain ⟨q, hq, hqv⟩ := (ih hrest).mp hmem
        exact ⟨q, by simp [hq], hqv⟩
    · rintro ⟨q, hq, hqv⟩
      rcases List.mem_cons.mp hq with hqp | hqr
      · subst hqp
        exact Or.inl ((Value.beq_iff_of_primitive v q.2 hp).mpr hqv.symm)
      · exact Or.inr ((ih hrest).mpr ⟨q, hqr, hqv⟩)

/-- A supported item rule never faults: the element check returns some
boolean. -/
theorem itemPasses_isSupported (it : ItemRule) (h : it.isSupported = true) (e : Value) :
    ∃ b, itemPasses it e = .ok b := by
  cases it with
  | prim tag => exact ⟨_, rfl⟩
  | pred f => exact ⟨_, rfl⟩
  | enumDesc vals => exact ⟨_, rfl⟩
  | itemTypeObj inner => simp [ItemRule.isSupported] at h

/-- The composite every loop yields true exactly when every element
check yields true. -/
theorem compEvery_ok_true_iff (v : Value) :
    ∀ rs : List Rule,
      compEvery v rs = .ok true ↔ ∀ r ∈ rs, compElementPasses v r = .ok true := by
  intro rs
  induction rs with
  | nil => simp [compEvery]
  | cons r rest ih =>
    simp only [compEvery]
    cases h : compElementPasses v r with
    | error e => simp [h]
    | ok b =>
      cases b with
      | true => simp [h, ih]
      | false => simp [h]

/-- The element-wise every loop of the array checker yields true exactly
when every element check yields true, provided no element check faults. -/
theorem everyExcept_ok_true_iff (f : Value → Except JsError Bool)
    (hf : ∀ e, ∃ b, f e = .ok b) :
    ∀ es : List Value, everyExcept es f = .ok true ↔ ∀ e ∈ es, f e = .ok true := by
  intro es
  induction es with
  | nil => simp [everyExcept]
  | cons e rest ih =>
    simp only [everyExcept]
    obtain ⟨b, hb⟩ := hf e
    cases b with
    | true => simp [hb, ih]
    | false => simp [hb]

/-- The result object of validateHelper has one entry per schema key, in
schema order. -/
theorem validateHelper_keys (input : Value) :
    ∀ (schema : Schema) (res : List (String × VResult)),
      validateHelper input schema = .ok res →
      res.map Prod.fst = schema.map Prod.fst := by
  intro schema
  induction schema with
  | nil =>
    intro res h
    simp only [validateHelper] at h
    cases h
    rfl
  | cons head rest ih =>
    intro res h
    obtain ⟨key, rule⟩ := head
    simp only [validateHelper] at h
    cases hk : keyResult input key rule with
    | error e => rw [hk] at h; cases h
    | ok r =>
      rw [hk] at h
      cases ht : validateHelper input rest with
      | error e => rw [ht] at h; cases h
      | ok tl =>
        rw [ht] at h
        cases h
        simp [ih tl ht]

/-- C1: for the schema requiring name string, age number, email string,
other undefined and sx an array of strings, the input with name John
Doe, age the string 30 and a string email (sx absent) validates to
exactly name true, age false, email true, other true, sx false. -/
theorem claim_C1 :
    Validator.validate
      ⟨[("name", .prim "string"), ("age", .prim "number"), ("email", .prim "string"),
        ("other", .prim "undefined"), ("sx", .arrayDesc (.prim "string"))]⟩
      (.obj [("name", .str "John Doe"), ("age", .str "30"),
             ("email", .str "john.doe@example.com")]) =
    .ok [("name", .bool true), ("age", .bool false), ("email", .bool true),
         ("other", .bool true), ("sx", .bool false)] := by
  rfl

/-- C2: for a schema key whose rule is neither the undefined tag nor the
null tag, a key absent from the input (own-property check) is recorded
false, no rule is applied to the missing value (the outcome does not
depend on the rule), and validation continues with the remaining keys. -/
theorem claim_C2 (input : Value) (key : String) (rule : Rule) (rest : Schema)
    (hAbsent : hasOwn input key = false)
    (hNotUndef : rule ≠ .prim "undefined") (hNotNull : rule ≠ .prim "null") :
    validateHelper input ((key, rule) :: rest) =
      (validateHelper input rest).map (fun tl => (key, VResult.bool false) :: tl) := by
  have hk : keyResult input key rule = .ok (.bool false) := by
    cases rule with
    | prim tag =>
      have h1 : (tag == "undefined") = false := by
        simp only [beq_eq_false_iff_ne, ne_eq]
        intro he; exact hNotUndef (by rw [he])
      have h2 : (tag == "null") = false := by
        simp only [beq_eq_false_iff_ne, ne_eq]
        intro he; exact hNotNull (by rw [he])
      simp [keyResult, h1, h2, hAbsent]
    | pred f => simp [keyResult, hAbsent]
    | enumDesc vals => simp [keyResult, hAbsent]
    | arrayDesc it => simp [keyResult, hAbsent]
    | nested s => simp [keyResult, hAbsent]
    | composite rs => simp [keyResult, hAbsent]
  simp only [validateHelper, hk]
  cases validateHelper input rest <;> simp [Except.map]

/-- Witness for C2 at a concrete input: an array-descriptor rule (whose
application would even fault on any element) is never applied when the
key sx is absent; the field is simply recorded false. -/
theorem claim_C2_witness :
    validateHelper (Value.obj [("name", Value.str "x")])
        [("sx", Rule.arrayDesc (ItemRule.itemTypeObj (ItemRule.prim "string")))] =
      (validateHelper (Value.obj [("name", Value.str "x")]) []).map
        (fun tl => ("sx", VResult.bool false) :: tl) :=
  claim_C2 (Value.obj [("name", Value.str "x")]) "sx"
    (Rule.arrayDesc (ItemRule.itemTypeObj (ItemRule.prim "string"))) []
    (by rfl) (fun h => Rule.noConfusion h) (fun h => Rule.noConfusion h)

/-- C3: for a schema key whose rule is the undefined tag, the recorded
boolean is true exactly when the key is absent from the input or its
value is undefined; no other check is performed (the outcome is this
boolean whatever the input value is) and in particular an empty input
and an input carrying the explicit value undefined both validate to
true for that field. -/
theorem claim_C3 (input : Value) (key : String) (rest : Schema) :
    (validateHelper input ((key, .prim "undefined") :: rest) =
      (validateHelper input rest).map
        (fun tl =>
          (key, VResult.bool (!hasOwn input key || (getField input key).isUndefined)) :: tl))
    ∧ ((!hasOwn input key || (getField input key).isUndefined) = true ↔
        (hasOwn input key = false ∨ getField input key = .undefined))
    ∧ Validator.validate ⟨[("field", .prim "undefined")]⟩ (.obj []) =
        .ok [("field", .bool true)]
    ∧ Validator.validate ⟨[("field", .prim "undefined")]⟩ (.obj [("field", .undefined)]) =
        .ok [("field", .bool true)] := by
  refine ⟨?_, ?_, rfl, rfl⟩
  · simp only [validateHelper, keyResult, if_pos rfl]
    cases validateHelper input rest <;> simp [Except.map]
  · rw [Bool.or_eq_true, Bool.not_eq_true', Value.isUndef_iff]

/-- C4: the composite checker normalizes its argument to an array (a
singleton when it is a single rule) and yields true exactly when every
rule in the array passes against the value; for the rule list of the
number tag and the positivity predicate, the value 5 passes, the value
negative 5 fails, and the string 5 fails. -/
theorem claim_C4 :
    (∀ (v : Value) (r : Rule),
        validateCompositeValidator v (.single r) = validateCompositeValidator v (.list [r]))
    ∧ (∀ (v : Value) (rs : List Rule),
        validateCompositeValidator v (.list rs) = .ok true ↔
          ∀ r ∈ rs, compElementPasses v r = .ok true)
    ∧ validateCompositeValidator (.num 5) (.list [.prim "number", .pred isPositive]) = .ok true
    ∧ validateCompositeValidator (.num (-5)) (.list [.prim "number", .pred isPositive]) = .ok false
    ∧ validateCompositeValidator (.str "5") (.list [.prim "number", .pred isPositive]) = .ok false := by
  refine ⟨fun v r => rfl, fun v rs => ?_, rfl, rfl, rfl⟩
  exact compEvery_ok_true_iff v rs

/-- C5 counterexample: for the list rule of the number tag and the
positivity predicate with the field value an empty object, the
dispatcher stores a nested result tree with index keys — the value was
recursed into with the rule array as a schema — while the composite
checker on the same value and rule list returns the boolean false; the
stored tree is not the boolean the composite checker would have
produced, so the dispatcher did not delegate to the composite checker. -/
theorem claim_C5_counterexample :
    Validator.validate ⟨[("price", .composite [.prim "number", .pred isPositive])]⟩
        (.obj [("price", .obj [])]) =
      .ok [("price", .tree [("0", .bool false), ("1", .bool false)])]
    ∧ validateCompositeValidator (.obj []) (.list [.prim "number", .pred isPositive]) =
        .ok false
    ∧ VResult.tree [("0", .bool false), ("1", .bool false)] ≠ VResult.bool false :=
  ⟨rfl, rfl, fun h => VResult.noConfusion h⟩

/-- C5 amended: for a present key whose rule is a list, the dispatcher
delegates to the composite checker only when the field value is not a
non-null object; when the value is a non-null object (arrays included,
since typeof of an array is the object tag) the nested-recursion branch
fires first and recurses with the rule array as a schema, storing an
index-keyed result tree. -/
theorem claim_C5_amended (input : Value) (key : String) (rs : List Rule)
    (hPresent : hasOwn input key = true) :
    keyResult input key (.composite rs) =
      if isObjectNonNull (getField input key) then
        (validateIndexed (getField input key) 0 rs).map VResult.tree
      else
        (validateCompositeValidator (getField input key) (.list rs)).map VResult.bool := by
  simp only [keyResult, hPresent, Bool.not_true, Bool.false_eq_true, if_false]
  cases h : isObjectNonNull (getField input key) with
  | true =>
    simp only [if_pos rfl]
    cases validateIndexed (getField input key) 0 rs <;> simp [Except.map]
  | false =>
    simp only [Bool.false_eq_true, if_false]
    cases validateCompositeValidator (getField input key) (.list rs) <;> simp [Except.map]

/-- Witness for the amended C5 at a concrete input: a present key whose
value is a number, so the composite branch applies. -/
theorem claim_C5_amended_witness :
    keyResult (Value.obj [("price", Value.num 5)]) "price"
        (.composite [.prim "number", .pred isPositive]) =
      if isObjectNonNull (getField (Value.obj [("price", Value.num 5)]) "price") then
        (validateIndexed (getField (Value.obj [("price", Value.num 5)]) "price") 0
            [.prim "number", .pred isPositive]).map VResult.tree
      else
        (validateCompositeValidator (getField (Value.obj [("price", Value.num 5)]) "price")
            (.list [.prim "number", .pred isPositive])).map VResult.bool :=
  claim_C5_amended (Value.obj [("price", Value.num 5)]) "price"
    [.prim "number", .pred isPositive] (by rfl)

/-- C6 counterexample: validating the empty object against the schema
whose key user carries a nested schema returns normally with user
recorded false — the missing-key check fires before the nested branch,
so the nested schema is never applied to an undefined value and no
fault occurs. -/
theorem claim_C6_counterexample :
    Validator.validate ⟨[("user", .nested [("name", .prim "string")])]⟩ (.obj []) =
      .ok [("user", .bool false)] := by
  rfl

/-- C6 amended: when a nested-schema key is absent from the input, the
own-property check records false for that key without recursing — the
outcome does not depend on the nested schema at all — and validation
continues with the remaining keys; no property of an undefined value is
ever probed. -/
theorem claim_C6_amended (input : Value) (key : String) (s : Schema) (rest : Schema)
    (hAbsent : hasOwn input key = false) :
    validateHelper input ((key, .nested s) :: rest) =
      (validateHelper input rest).map (fun tl => (key, VResult.bool false) :: tl) := by
  have hk : keyResult input key (.nested s) = .ok (.bool false) := by
    simp [keyResult, hAbsent]
  simp only [validateHelper, hk]
  cases validateHelper input rest <;> simp [Except.map]

/-- Witness for the amended C6 at the concrete input of the claim: the
empty object against the nested schema for user. -/
theorem claim_C6_amended_witness :
    validateHelper (Value.obj []) [("user", .nested [("name", .prim "string")])] =
      (validateHelper (Value.obj []) []).map
        (fun tl => ("user", VResult.bool false) :: tl) :=
  claim_C6_amended (Value.obj []) "user" [("name", .prim "string")] [] (by rfl)

/-- C7: the enum checker returns true exactly when the value equals one
of the enum member values (membership, order irrelevant, no coercion;
the member values of the claim are primitives, on which the structural
comparison of the embedding is strict equality); for the enum with
members a and b, the string a passes while the string c and the number
0 fail. -/
theorem claim_C7 (v : Value) (vals : List (String × Value))
    (h : ∀ p ∈ vals, (p.2 : Value).isPrimitive = true) :
    (validateEnum v vals = true ↔ ∃ p ∈ vals, p.2 = v)
    ∧ validateEnum (.str "a") [("A", .str "a"), ("B", .str "b")] = true
    ∧ validateEnum (.str "c") [("A", .str "a"), ("B", .str "b")] = false
    ∧ validateEnum (.num 0) [("A", .str "a"), ("B", .str "b")] = false :=
  ⟨validateEnum_iff v vals h, rfl, rfl, rfl⟩

/-- Witness for C7 at the enum of the claim and the value the string a. -/
theorem claim_C7_witness :
    (validateEnum (.str "a") [("A", .str "a"), ("B", .str "b")] = true ↔
      ∃ p ∈ [("A", Value.str "a"), ("B", Value.str "b")], p.2 = Value.str "a")
    ∧ validateEnum (.str "a") [("A", .str "a"), ("B", .str "b")] = true
    ∧ validateEnum (.str "c") [("A", .str "a"), ("B", .str "b")] = false
    ∧ validateEnum (.num 0) [("A", .str "a"), ("B", .str "b")] = false :=
  claim_C7 (Value.str "a") [("A", Value.str "a"), ("B", Value.str "b")]
    (by
      intro p hp
      simp only [List.mem_cons, List.not_mem_nil, or_false] at hp
      rcases hp with h | h <;> simp [h, Value.isPrimitive])

/-- C8: for a supported item rule (a primitive tag, a predicate, or an
enum descriptor), the array checker returns false on every non-array
value, and on an array returns true exactly when every element passes
the item rule; the empty array vacuously passes, the array of the
string a and the number 2 fails the string tag, and a string value
fails outright. -/
theorem claim_C8 (it : ItemRule) (hSupported : it.isSupported = true) :
    (∀ v : Value, (∀ es, v ≠ .arr es) → validateArray v it = .ok false)
    ∧ (∀ es : List Value,
        validateArray (.arr es) it = .ok true ↔ ∀ e ∈ es, itemPasses it e = .ok true)
    ∧ validateArray (.arr []) it = .ok true
    ∧ validateArray (.arr [.str "a", .num 2]) (.prim "string") = .ok false
    ∧ validateArray (.str "not an array") (.prim "string") = .ok false := by
  refine ⟨?_, ?_, rfl, rfl, rfl⟩
  · intro v hv
    cases v <;> first
      | exact absurd rfl (hv _)
      | rfl
  · intro es
    exact everyExcept_ok_true_iff (itemPasses it) (itemPasses_isSupported it hSupported) es

/-- Witness for C8 at the string primitive tag. -/
theorem claim_C8_witness :
    (∀ v : Value, (∀ es, v ≠ .arr es) → validateArray v (ItemRule.prim "string") = .ok false)
    ∧ (∀ es : List Value,
        validateArray (.arr es) (ItemRule.prim "string") = .ok true ↔
          ∀ e ∈ es, itemPasses (ItemRule.prim "string") e = .ok true)
    ∧ validateArray (.arr []) (ItemRule.prim "string") = .ok true
    ∧ validateArray (.arr [.str "a", .num 2]) (.prim "string") = .ok false
    ∧ validateArray (.str "not an array") (.prim "string") = .ok false :=
  claim_C8 (ItemRule.prim "string") rfl

/-- C9 counterexample: for the schema whose key profile carries a nested
schema and an input in which profile is a string, the stored value for
the nested-schema key is the boolean false, not a result tree. -/
theorem claim_C9_counterexample :
    Validator.validate ⟨[("profile", .nested [("bio", .prim "string")])]⟩
        (.obj [("profile", .str "x")]) =
      .ok [("profile", .bool false)]
    ∧ ¬ ∃ t, VResult.bool false = VResult.tree t := by
  refine ⟨rfl, ?_⟩
  rintro ⟨t, ht⟩
  exact VResult.noConfusion ht

/-- C9 amended: whenever validate returns a result, its key list is
exactly the schema key list in order (extra input keys contribute
nothing); and entrywise, a nested-schema key stores a result tree with
the nested schema key list when the input value at that key is a
present non-null object, and stores the boolean false otherwise. -/
theorem claim_C9_amended (input : Value) (schema : Schema) (res : List (String × VResult))
    (h : validateHelper input schema = .ok res) :
    res.map Prod.fst = schema.map Prod.fst
    ∧ List.Forall₂ (fun (re : String × VResult) (se : String × Rule) =>
        ∀ s : Schema, se.2 = .nested s →
          if hasOwn input se.1 && isObjectNonNull (getField input se.1) then
            ∃ t, re.2 = VResult.tree t ∧ t.map Prod.fst = s.map Prod.fst
          else re.2 = VResult.bool false) res schema := by
  refine ⟨validateHelper_keys input schema res h, ?_⟩
  induction schema generalizing res with
  | nil =>
    simp only [validateHelper] at h
    cases h
    exact List.Forall₂.nil
  | cons head rest ih =>
    obtain ⟨key, rule⟩ := head
    simp only [validateHelper] at h
    cases hk : keyResult input key rule with
    | error e => rw [hk] at h; cases h
    | ok r =>
      rw [hk] at h
      cases ht : validateHelper input rest with
      | error e => rw [ht] at h; cases h
      | ok tl =>
        rw [ht] at h
        cases h
        refine List.Forall₂.cons ?_ (ih tl ht)
        intro s hs
        subst hs
        cases hOwn : hasOwn input key with
        | false =>
          have hk2 : keyResult input key (.nested s) = .ok (.bool false) := by
            simp [keyResult, hOwn]
          have hr : r = VResult.bool false := by
            rw [hk] at hk2
            exact (Except.ok.injEq _ _).mp hk2
          subst hr
          simp [hOwn]
        | true =>
          cases hObj : isObjectNonNull (getField input key) with
          | false =>
            have hk2 : keyResult input key (.nested s) = .ok (.bool false) := by
              simp [keyResult, hOwn, hObj]
            have hr : r = VResult.bool false := by
              rw [hk] at hk2
              exact (Except.ok.injEq _ _).mp hk2
            subst hr
            simp [hOwn, hObj]
          | true =>
            simp [keyResult, hOwn, hObj] at hk
            cases hv : validateHelper (getField input key) s with
            | error e => rw [hv] at hk; cases hk
            | ok t =>
              rw [hv] at hk
              injection hk with h2
              subst h2
              simp only [hOwn, hObj, Bool.and_self, if_pos rfl]
              exact ⟨t, rfl, validateHelper_keys (getField input key) s t hv⟩

/-- Witness for the amended C9 at the end-to-end schema and input of the
reference tests. -/
theorem claim_C9_amended_witness :
    ([("name", VResult.bool true), ("age", VResult.bool false), ("email", VResult.bool true),
      ("other", VResult.bool true), ("sx", VResult.bool false)].map Prod.fst =
        ([("name", Rule.prim "string"), ("age", Rule.prim "number"),
          ("email", Rule.prim "string"), ("other", Rule.prim "undefined"),
          ("sx", Rule.arrayDesc (.prim "string"))] : Schema).map Prod.fst)
    ∧ List.Forall₂ (fun (re : String × VResult) (se : String × Rule) =>
        ∀ s : Schema, se.2 = .nested s →
          if hasOwn (Value.obj [("name", Value.str "John Doe"), ("age", Value.str "30"),
              ("email", Value.str "john.doe@example.com")]) se.1 &&
              isObjectNonNull (getField (Value.obj [("name", Value.str "John Doe"),
                ("age", Value.str "30"), ("email", Value.str "john.doe@example.com")]) se.1) then
            ∃ t, re.2 = VResult.tree t ∧ t.map Prod.fst = s.map Prod.fst
          else re.2 = VResult.bool false)
        [("name", VResult.bool true), ("age", VResult.bool false), ("email", VResult.bool true),
         ("other", VResult.bool true), ("sx", VResult.bool false)]
        [("name", Rule.prim "string"), ("age", Rule.prim "number"),
         ("email", Rule.prim "string"), ("other", Rule.prim "undefined"),
         ("sx", Rule.arrayDesc (.prim "string"))] :=
  claim_C9_amended
    (Value.obj [("name", Value.str "John Doe"), ("age", Value.str "30"),
                ("email", Value.str "john.doe@example.com")])
    [("name", Rule.prim "string"), ("age", Rule.prim "number"),
     ("email", Rule.prim "string"), ("other", Rule.prim "undefined"),
     ("sx", Rule.arrayDesc (.prim "string"))]
    [("name", VResult.bool true), ("age", VResult.bool false), ("email", VResult.bool true),
     ("other", VResult.bool true), ("sx", VResult.bool false)]
    (by rfl)

/-- C10: an array-descriptor rule whose itemType is an object without an
enum property (here the nested array descriptor of the claim) faults
with a TypeError on every non-empty array value — the itemType is
invoked as a function — so validate propagates the fault instead of
recording false for the field, while an empty array still passes
because the every loop never invokes the callback. -/
theorem claim_C10 :
    (∀ (e : Value) (es : List Value) (inner : ItemRule),
        validateArray (.arr (e :: es)) (.itemTypeObj inner) = .error .typeError)
    ∧ Validator.validate ⟨[("f", .arrayDesc (.itemTypeObj (.prim "string")))]⟩
        (.obj [("f", .arr [.str "x"])]) = .error .typeError
    ∧ validateArray (.arr []) (.itemTypeObj (.prim "string")) = .ok true := by
  exact ⟨fun e es inner => rfl, rfl, rfl⟩
